import Mathlib

/-!
Verification development for the A402 payment-verification server and embed
widget.  The JavaScript sources (server.js and the embed widget) are shallowly
embedded: JS strings become Lean `String` (a wrapped `List Char`), JS `BigInt`
becomes `Nat` (arbitrary precision, as in the source), thrown exceptions become
`Except Unit` / `Option`, and the remote chain is an explicit record of the two
RPC answers a single verification can request.
-/

set_option maxHeartbeats 1000000
set_option maxRecDepth 100000

/- ===== JavaScript string primitives ===== -/

/-- JS `s.slice(a, b)`: characters from index `a` (inclusive) to `b`
(exclusive), clamped to the string; never reads out of bounds. -/
def strSlice (s : String) (a b : Nat) : String := ⟨(s.data.take b).drop a⟩

/-- JS `s.slice(a)`: characters from index `a` to the end. -/
def strFrom (s : String) (a : Nat) : String := ⟨s.data.drop a⟩

/-- JS `s.slice(-n)`: the last `n` characters (the whole string when shorter). -/
def sliceLast (n : Nat) (s : String) : String := ⟨s.data.drop (s.data.length - n)⟩

/-- JS `toLowerCase` on the ASCII range (every string the code lower-cases is a
hex identifier or address). -/
def charLower (c : Char) : Char := if 'A' ≤ c && c ≤ 'Z' then Char.ofNat (c.toNat + 32) else c

/-- JS `s.toLowerCase()`. -/
def strLower (s : String) : String := ⟨s.data.map charLower⟩

def listIsPre : List Char → List Char → Bool
  | [], _ => true
  | _ :: _, [] => false
  | p :: ps, t :: ts => p == t && listIsPre ps ts

/-- JS `s.startsWith(t)`. -/
def strStarts (s t : String) : Bool := listIsPre t.data s.data

def containsAux (p : List Char) : List Char → Bool
  | [] => listIsPre p []
  | c :: cs => listIsPre p (c :: cs) || containsAux p cs

/-- JS `s.includes(t)`. -/
def containsSub (s t : String) : Bool := containsAux t.data s.data

/-- JS `s.endsWith(t)` (used to model the `$`-anchored media-extension regex). -/
def strEnds (s t : String) : Bool := s.data.drop (s.data.length - t.data.length) == t.data

/-- JS `s.padStart(k, '0')`. -/
def padStartZ (k : Nat) (l : List Char) : List Char := List.replicate (k - l.length) '0' ++ l

/-- JS `s.padEnd(k, '0')`. -/
def padEndZ (k : Nat) (l : List Char) : List Char := l ++ List.replicate (k - l.length) '0'

/- ===== Decimal and hexadecimal numerals (JS BigInt conversions) ===== -/

def decDigitChar (d : Nat) : Char := Char.ofNat (48 + d)

def hexDigitChar (d : Nat) : Char := if d < 10 then Char.ofNat (48 + d) else Char.ofNat (87 + d)

def decDigVal (c : Char) : Option Nat := if '0' ≤ c && c ≤ '9' then some (c.toNat - 48) else none

def hexDigVal (c : Char) : Option Nat :=
  if '0' ≤ c && c ≤ '9' then some (c.toNat - 48)
  else if 'a' ≤ c && c ≤ 'f' then some (c.toNat - 87)
  else if 'A' ≤ c && c ≤ 'F' then some (c.toNat - 55)
  else none

def decStep (acc : Option Nat) (c : Char) : Option Nat :=
  acc.bind fun n => (decDigVal c).map fun d => 10 * n + d

def decParse (l : List Char) : Option Nat := l.foldl decStep (some 0)

def hexStep (acc : Option Nat) (c : Char) : Option Nat :=
  acc.bind fun n => (hexDigVal c).map fun d => 16 * n + d

def hexParse (l : List Char) : Option Nat := l.foldl hexStep (some 0)

/-- JS `BigInt('0x' + s)`: `none` models the thrown `SyntaxError` (empty string
after the prefix, or a non-hex character). -/
def hexToNat? (s : String) : Option Nat := if s.data.isEmpty then none else hexParse s.data

/-- JS `BigInt(s)` on a decimal string (the empty string parses as 0 in JS). -/
def decToNat? (s : String) : Option Nat := decParse s.data

/-- Decimal rendering, fuel-structured model of JS `BigInt.prototype.toString()`. -/
def natToDecAux : Nat → Nat → List Char
  | 0, _ => []
  | f + 1, n => if n < 10 then [decDigitChar n] else natToDecAux f (n / 10) ++ [decDigitChar (n % 10)]

def natToDecList (n : Nat) : List Char := natToDecAux (n + 1) n

def natToDecStr (n : Nat) : String := ⟨natToDecList n⟩

/-- Lower-case hex rendering, model of JS `BigInt.prototype.toString(16)`. -/
def natToHexAux : Nat → Nat → List Char
  | 0, _ => []
  | f + 1, n => if n < 16 then [hexDigitChar n] else natToHexAux f (n / 16) ++ [hexDigitChar (n % 16)]

def natToHexList (n : Nat) : List Char := natToHexAux (n + 1) n

/-- `padUint256` (server.js line 83) and `padUint` (embed.js line 197):
`BigInt(val).toString(16).padStart(64, '0')`. -/
def padUint (n : Nat) : String := ⟨padStartZ 64 (natToHexList n)⟩

/- ===== toWei (server.js lines 51-56) and fromWei (embed.js lines 210-215) ===== -/

/-- JS `replace(/0+$/, '')`: strip one trailing run of `'0'`. -/
def stripZeros (l : List Char) : List Char := (l.reverse.dropWhile (fun c => c == '0')).reverse

def splitDotAux : List Char → List Char → List (List Char)
  | [], acc => [acc.reverse]
  | c :: cs, acc => if c == '.' then acc.reverse :: splitDotAux cs [] else splitDotAux cs (c :: acc)

/-- JS `s.split('.')`. -/
def splitDot (s : String) : List (List Char) := splitDotAux s.data []

/-- `fromWei` (embed.js lines 210-215): render a wei amount as a decimal APTM
string, padding to at least 19 digits, splitting off the last 18 as the
fraction and trimming its trailing zeros. -/
def fromWei (w : Nat) : String :=
  let s := padStartZ 19 (natToDecList w)
  let whole0 := s.take (s.length - 18)
  let whole := if whole0.isEmpty then ['0'] else whole0
  let frac := stripZeros (s.drop (s.length - 18))
  if frac.isEmpty then ⟨whole⟩ else ⟨whole ++ '.' :: frac⟩

/-- Value computed by `toWei` (server.js lines 51-56): split at `'.'`, right-pad
the fraction to 18 digits, truncate to 18, and parse whole ++ frac as one
integer.  `none` models `BigInt` throwing on a malformed numeral. -/
def toWeiVal (aptm : String) : Option Nat :=
  let parts := splitDot aptm
  let whole0 := parts.getD 0 []
  let whole := if whole0.isEmpty then ['0'] else whole0
  let frac := (padEndZ 18 (parts.getD 1 [])).take 18
  decParse (whole ++ frac)

/-- `toWei` itself returns the decimal string of that value (`.toString()`). -/
def toWei (aptm : String) : Option String := (toWeiVal aptm).map natToDecStr

/- ===== ABI string codec =====
encStr (embed.js lines 199-204), encodeString (server.js lines 87-92), and the
string-field decoding pattern of getResource (embed.js lines 249-255). -/

/-- UTF-8 encoding of one character, the per-character action of JS
`new TextEncoder().encode` (Lean `Char` excludes unpaired surrogates). -/
def utf8EncodeChar (c : Char) : List Nat :=
  let n := c.toNat
  if n < 128 then [n]
  else if n < 2048 then [192 + n / 64, 128 + n % 64]
  else if n < 65536 then [224 + n / 4096, 128 + n / 64 % 64, 128 + n % 64]
  else [240 + n / 262144, 128 + n / 4096 % 64, 128 + n / 64 % 64, 128 + n % 64]

/-- JS `new TextEncoder().encode(s)` as a byte list. -/
def utf8Bytes (s : String) : List Nat := s.data.flatMap utf8EncodeChar

/-- JS `b.toString(16).padStart(2, '0')` for one byte. -/
def byteToHexList (b : Nat) : List Char := padStartZ 2 (natToHexList b)

def bytesToHex : List Nat → List Char
  | [] => []
  | b :: bs => byteToHexList b ++ bytesToHex bs

/-- JS `Math.ceil(n / 64) * 64`. -/
def ceil64 (n : Nat) : Nat := (n + 63) / 64 * 64

/-- `encStr` (embed.js lines 199-204): UTF-8 byte hex, prefixed with the BYTE
count as one 32-byte word, content right-padded to a 32-byte boundary. -/
def encStr (s : String) : String :=
  let b := utf8Bytes s
  let h := bytesToHex b
  ⟨padStartZ 64 (natToHexList b.length) ++ padEndZ (ceil64 h.length) h⟩

/-- JS `s.length`: UTF-16 code units (astral characters count twice). -/
def utf16Len (s : String) : Nat :=
  s.data.foldl (fun a c => a + (if c.toNat < 65536 then 1 else 2)) 0

/-- `encodeString` (server.js lines 87-92): same content bytes as `encStr`, but
the length word is `str.length` — UTF-16 code units, not the byte count. -/
def encodeString (s : String) : String :=
  let h := bytesToHex (utf8Bytes s)
  ⟨padStartZ 64 (natToHexList (utf16Len s)) ++ padEndZ (ceil64 h.length) h⟩

/-- JS `parseInt(p, 16)` on a 1- or 2-character slice followed by
`String.fromCharCode`: `parseInt` parses the longest valid numeric part,
`NaN` becomes character code 0. -/
def parseIntHex2 (c1 : Char) (c2? : Option Char) : Nat :=
  match hexDigVal c1 with
  | none => 0
  | some v1 =>
    match c2? with
    | none => v1
    | some c2 =>
      match hexDigVal c2 with
      | none => v1
      | some v2 => 16 * v1 + v2

/-- `hexStr` (embed.js lines 205-209): decode a hex string two characters at a
time into characters via `String.fromCharCode` (no UTF-8 decoding). -/
def hexStrAux : List Char → List Char
  | [] => []
  | [c] => [Char.ofNat (parseIntHex2 c none)]
  | c1 :: c2 :: rest => Char.ofNat (parseIntHex2 c1 (some c2)) :: hexStrAux rest

def hexStr (s : String) : String := ⟨hexStrAux s.data⟩

/-- `BigInt('0x' + s)` as a decode step: a thrown `SyntaxError` is `.error ()`. -/
def bigIntHex (s : String) : Except Unit Nat :=
  match hexToNat? s with
  | some n => .ok n
  | none => .error ()

/-- The dynamic-string-field decode pattern of `getResource` (embed.js lines
250-251 and 254-255): read a 32-byte length word at character offset `off`,
then `len * 2` hex characters of content, both slices clamped to the buffer. -/
def decodeStringField (d : String) (off : Nat) : Except Unit String :=
  match hexToNat? (strSlice d off (off + 64)) with
  | none => .error ()
  | some len => .ok (hexStr (strSlice d (off + 64) (off + 64 + len * 2)))

/-- Decoding a single-string return value: head word 0 is the byte offset of
the string (embed.js line 249 pattern, offset doubled into characters). -/
def decodeOneStringReturn (d : String) : Except Unit String :=
  match hexToNat? (strSlice d 0 64) with
  | none => .error ()
  | some off => decodeStringField d (off * 2)

/-- Calldata body (selector stripped) of `getResource(string)` as built at
embed.js line 240: `padUint(32) + encStr(resourceId)`. -/
def getResourceCalldataBody (resourceId : String) : String :=
  ⟨(padUint 32).data ++ (encStr resourceId).data⟩

/- ===== getResource return decoding (embed.js lines 238-260) ===== -/

structure Resource where
  price : Nat
  lifetime : Bool
  active : Bool
  resExists : Bool
  contentType : String
  contentRef : String
  totalPayments : Nat
deriving DecidableEq, Repr

/-- The decoding portion of `getResource` (embed.js lines 244-259), applied to
the eth_call result with the `0x` prefix already stripped.  All `BigInt`
conversions may throw (`.error ()`); `Number(BigInt(...))` conversions are
modelled exactly (they are exact below 2^53 in the source). -/
def decodeResource (d : String) : Except Unit Resource :=
  match hexToNat? (strSlice d 0 64) with
  | none => .error ()
  | some price =>
  match hexToNat? (strSlice d 64 128) with
  | none => .error ()
  | some lifetimeW =>
  match hexToNat? (strSlice d 128 192) with
  | none => .error ()
  | some activeW =>
  match hexToNat? (strSlice d 192 256) with
  | none => .error ()
  | some existsW =>
  match hexToNat? (strSlice d 256 320) with
  | none => .error ()
  | some typeOffW =>
  match decodeStringField d (typeOffW * 2) with
  | .error e => .error e
  | .ok contentType =>
  match hexToNat? (strSlice d 320 384) with
  | none => .error ()
  | some refOffW =>
  match decodeStringField d (refOffW * 2) with
  | .error e => .error e
  | .ok contentRef =>
  match hexToNat? (strSlice d 384 448) with
  | none => .error ()
  | some totalPayments =>
    .ok ⟨price, lifetimeW == 1, activeW == 1, existsW == 1, contentType, contentRef, totalPayments⟩

/- ===== detectSource (embed.js lines 273-292) ===== -/

structure SourceDesc where
  type : String
  value : String
deriving DecidableEq, Repr

def isAlnumChar (c : Char) : Bool :=
  ('a' ≤ c && c ≤ 'z') || ('A' ≤ c && c ≤ 'Z') || ('0' ≤ c && c ≤ '9')

def isYtChar (c : Char) : Bool := isAlnumChar c || c == '_' || c == '-'

/-- The regex `/\.(mp4|webm|ogg|mov|m3u8)(\?.*)?$/i`: a media extension either
at the very end or followed by `?` and arbitrary text to the end
(case-insensitive via lower-casing). -/
def mediaExtTest (ref : String) : Bool :=
  let l := strLower ref
  ["mp4", "webm", "ogg", "mov", "m3u8"].any fun e =>
    strEnds l ⟨'.' :: e.data⟩ || containsSub l ⟨'.' :: e.data ++ ['?']⟩

/-- The regex `/^[a-zA-Z0-9_-]{11}$/`. -/
def isBareYtId (ref : String) : Bool :=
  ref.data.length == 11 && ref.data.all isYtChar

def ytHosts : List String :=
  ["youtube.com/watch?v=", "youtu.be/", "youtube.com/embed/", "youtube.com/v/"]

/-- One position of the YouTube-URL regex: try each alternative host pattern in
regex alternation order; it must be followed by 11 id characters. -/
def ytMatchHere (l : List Char) : Option String :=
  ytHosts.findSome? fun p =>
    if listIsPre p.data l then
      let rest := l.drop p.data.length
      if 11 ≤ rest.length && (rest.take 11).all isYtChar then some ⟨rest.take 11⟩ else none
    else none

/-- `ref.match(/(?:youtube\.com\/watch\?v=|youtu\.be\/|youtube\.com\/embed\/|youtube\.com\/v\/)([a-zA-Z0-9_-]{11})/)`:
scan left to right for the first position where some alternative matches. -/
def ytMatchAux : List Char → Option String
  | [] => none
  | c :: cs =>
    match ytMatchHere (c :: cs) with
    | some id => some id
    | none => ytMatchAux cs

def ytUrlMatch (ref : String) : Option String := ytMatchAux ref.data

/-- The regex `/^(Qm[a-zA-Z0-9]{44,}|bafy[a-zA-Z0-9]{50,})$/`. -/
def isCid (ref : String) : Bool :=
  (listIsPre ['Q', 'm'] ref.data && (ref.data.drop 2).all isAlnumChar && 46 ≤ ref.data.length) ||
  (listIsPre ['b', 'a', 'f', 'y'] ref.data && (ref.data.drop 4).all isAlnumChar && 54 ≤ ref.data.length)

/-- `detectSource` (embed.js lines 273-292), the ordered content classifier. -/
def detectSource (ref : String) : SourceDesc :=
  if ref.data.isEmpty then ⟨"unknown", ""⟩
  else if strStarts ref "ipfs://" || containsSub ref "/ipfs/" || containsSub ref "/ipns/" then
    ⟨"ipfs", ref⟩
  else if mediaExtTest ref && strStarts ref "http" then ⟨"direct", ref⟩
  else if isBareYtId ref then ⟨"youtube", ref⟩
  else
    match ytUrlMatch ref with
    | some id => ⟨"youtube", id⟩
    | none =>
      if isCid ref then ⟨"ipfs", ⟨"ipfs://".data ++ ref.data⟩⟩
      else if strStarts ref "http" then ⟨"direct", ref⟩
      else ⟨"unknown", ref⟩

/- ===== The verifier state machine (server.js POST /api/verify, lines 271-380) ===== -/

structure Config where
  verifierContract : String
  creatorAddress : String
  priceWei : Nat
deriving DecidableEq, Repr

structure Log where
  address : String
  topics : List String
  data : String
deriving DecidableEq, Repr

structure Receipt where
  status : String
  logs : List Log
deriving DecidableEq, Repr

structure Tx where
  toAddr : Option String
deriving DecidableEq, Repr

/-- The two RPC reads one verification run can issue, for the transaction hash
under scrutiny.  `.error` models `rpcCall` throwing (transport or RPC error). -/
structure Chain where
  receipt : Except Unit (Option Receipt)
  txn : Except Unit (Option Tx)

structure Payment where
  verified : Bool
  payer : String
  creator : String
  amount : String
  timestamp : Nat
deriving DecidableEq, Repr

/-- The in-memory `payments` Map, insertion-ordered. -/
abbrev PayMap := List (String × Payment)

def lookupPay : PayMap → String → Option Payment
  | [], _ => none
  | (k, v) :: rest, key => if k == key then some v else lookupPay rest key

/-- JS `Map.set`: overwrite in place or append. -/
def insertPay : PayMap → String → Payment → PayMap
  | [], key, v => [(key, v)]
  | (k, v0) :: rest, key, v => if k == key then (key, v) :: rest else (k, v0) :: insertPay rest key v

/-- `payments.get(normalizedHash)?.verified` (server.js line 277). -/
def fastPathHit (pm : PayMap) (txHash : String) : Bool :=
  match lookupPay pm (strLower txHash) with
  | some p => p.verified
  | none => false

/-- `!tx || tx.to?.toLowerCase() !== CONFIG.verifierContract.toLowerCase()`
(server.js line 300), as the positive condition. -/
def destOk (cfg : Config) (txo : Option Tx) : Bool :=
  match txo with
  | none => false
  | some tx =>
    match tx.toAddr with
    | none => false
    | some a => strLower a == strLower cfg.verifierContract

/-- `(receipt.logs || []).filter(log => log.address?.toLowerCase() === CONFIG.verifierContract.toLowerCase())`
(server.js lines 308-310). -/
def contractLogsOf (cfg : Config) (r : Receipt) : List Log :=
  r.logs.filter fun log => strLower log.address == strLower cfg.verifierContract

structure VerifiedLog where
  payer : String
  creator : String
  amount : Nat
deriving DecidableEq, Repr

/-- Payer as extracted at server.js line 341: `'0x' + log.topics[1].slice(-40)`. -/
def payerOf (log : Log) : String := ⟨'0' :: 'x' :: (sliceLast 40 (log.topics.getD 1 "")).data⟩

/-- Creator/beneficiary as extracted at server.js line 328:
`'0x' + log.topics[2].slice(-40)`. -/
def creatorOf (log : Log) : String := ⟨'0' :: 'x' :: (sliceLast 40 (log.topics.getD 2 "")).data⟩

/-- The log scan (server.js lines 323-345): first log with at least 3 topics,
creator topic matching the configured creator, at least 2 data words, and
amount word (data characters 64..128) at least the configured price. -/
def scanLogs (cfg : Config) : List Log → Except Unit (Option VerifiedLog)
  | [] => .ok none
  | log :: rest =>
    if log.topics.length < 3 then scanLogs cfg rest
    else if !(strLower (creatorOf log) == strLower cfg.creatorAddress) then scanLogs cfg rest
    else if (strFrom log.data 2).length < 128 then scanLogs cfg rest
    else
      match hexToNat? (strSlice (strFrom log.data 2) 64 128) with
      | none => .error ()
      | some logAmount =>
        if logAmount < cfg.priceWei then scanLogs cfg rest
        else .ok (some ⟨payerOf log, creatorOf log, logAmount⟩)

/-- Outcomes of one POST /api/verify run, one constructor per distinct
response the handler can produce. -/
inductive Outcome where
  | verified (payer creator : String) (amount : Nat)
  | alreadyVerified
  | notFound
  | pending
  | reverted
  | wrongDestination
  | noContractEvents
  | noMatchingEvent
  | caughtError
deriving DecidableEq, Repr

/-- Spec §4.4 terminal `Rejected` outcomes (HTTP 400/404 rejections). -/
def isRejected : Outcome → Bool
  | .notFound | .wrongDestination | .noContractEvents | .noMatchingEvent => true
  | _ => false

/-- Responses whose JSON carries `verified: true` (content unlock). -/
def isVerifiedResp : Outcome → Bool
  | .verified _ _ _ => true
  | .alreadyVerified => true
  | _ => false

/-- POST /api/verify (server.js lines 271-380).  Returns the outcome, the
payments table afterwards, and the number of ChainReader (rpcCall)
invocations performed. -/
def verify (cfg : Config) (pm : PayMap) (chain : Chain) (now : Nat) (txHash : String) :
    Outcome × PayMap × Nat :=
  if fastPathHit pm txHash then (.alreadyVerified, pm, 0)
  else
    match chain.receipt with
    | .error _ => (.caughtError, pm, 1)
    | .ok none =>
      match chain.txn with
      | .error _ => (.caughtError, pm, 2)
      | .ok none => (.notFound, pm, 2)
      | .ok (some _) => (.pending, pm, 2)
    | .ok (some receipt) =>
      if !(receipt.status == "0x1") then (.reverted, pm, 1)
      else
        match chain.txn with
        | .error _ => (.caughtError, pm, 2)
        | .ok txo =>
          if !(destOk cfg txo) then (.wrongDestination, pm, 2)
          else
            let contractLogs := contractLogsOf cfg receipt
            if contractLogs.isEmpty then (.noContractEvents, pm, 2)
            else
              match scanLogs cfg contractLogs with
              | .error _ => (.caughtError, pm, 2)
              | .ok none => (.noMatchingEvent, pm, 2)
              | .ok (some v) =>
                (.verified v.payer v.creator v.amount,
                 insertPay pm (strLower txHash) ⟨true, v.payer, v.creator, natToDecStr v.amount, now⟩,
                 2)

/- ===== Derived views of the scan, used to state the claims ===== -/

/-- Amount word of the log, data characters 64..128 (server.js line 338). -/
def amountOf (log : Log) : Nat := (hexToNat? (strSlice (strFrom log.data 2) 64 128)).getD 0

/-- A log qualifies when the guards of the scan loop all pass: beneficiary
decodes and matches, data holds two words, and the amount meets the price. -/
def qualifies (cfg : Config) (log : Log) : Bool :=
  !(log.topics.length < 3) &&
  (strLower (creatorOf log) == strLower cfg.creatorAddress) &&
  !((strFrom log.data 2).length < 128) &&
  !(amountOf log < cfg.priceWei)

/-- Well-formedness of one log for the scan: whenever the amount word is
reached (data long enough), it parses as hex — i.e. the log is hex-encoded
chain data, so `BigInt` does not throw on it. -/
def LogWF (log : Log) : Prop :=
  128 ≤ (strFrom log.data 2).length → (hexToNat? (strSlice (strFrom log.data 2) 64 128)).isSome

instance (log : Log) : Decidable (LogWF log) := by
  unfold LogWF; infer_instance

/- ===== Concrete example data used in closed theorems ===== -/

def exCfg : Config :=
  ⟨"0xCAFE0000000000000000000000000000000000ca",
   "0xAAAAAAAAAAAAAAAAAAAAAAAAAAAAAAAAAAAAAAAA", 1000⟩

def exTopic (s : String) : String := ⟨'0' :: 'x' :: padStartZ 64 s.data⟩

def exSigTopic : String := exTopic "1234"

def exPayerTopic : String := exTopic "bbbbbbbbbbbbbbbbbbbbbbbbbbbbbbbbbbbbbbbb"

def exCreatorTopic : String := exTopic "aaaaaaaaaaaaaaaaaaaaaaaaaaaaaaaaaaaaaaaa"

def exPayer : String := "0xbbbbbbbbbbbbbbbbbbbbbbbbbbbbbbbbbbbbbbbb"

def exCreator : String := "0xaaaaaaaaaaaaaaaaaaaaaaaaaaaaaaaaaaaaaaaa"

/-- Event data: word 0 a string offset, word 1 the amount (the layout the scan
expects at server.js lines 335-338). -/
def exData (amount : Nat) : String := ⟨'0' :: 'x' :: (padUint 32).data ++ (padUint amount).data⟩

/-- A contract log whose amount (500) is below the configured price (1000). -/
def exLowLog : Log :=
  ⟨"0xcafe0000000000000000000000000000000000ca",
   [exSigTopic, exPayerTopic, exCreatorTopic], exData 500⟩

/-- A contract log paying exactly the configured price (1000). -/
def exOkLog : Log :=
  ⟨"0xCAFE0000000000000000000000000000000000CA",
   [exSigTopic, exPayerTopic, exCreatorTopic], exData 1000⟩

def exReceipt : Receipt := ⟨"0x1", [exLowLog, exOkLog]⟩

def exChain : Chain :=
  ⟨.ok (some exReceipt), .ok (some ⟨some "0xCafe0000000000000000000000000000000000cA"⟩)⟩

def exChainReverted : Chain :=
  ⟨.ok (some ⟨"0x0", [exOkLog]⟩), .ok (some ⟨some "0xCafe0000000000000000000000000000000000cA"⟩)⟩

def exChainWrongDest : Chain :=
  ⟨.ok (some exReceipt), .ok (some ⟨some "0x1111111111111111111111111111111111111111"⟩)⟩

def exChainNotFound : Chain := ⟨.ok none, .ok none⟩

def exChainPendingTx : Chain :=
  ⟨.ok none, .ok (some ⟨some "0xCafe0000000000000000000000000000000000cA"⟩)⟩

def exPayment : Payment := ⟨true, exPayer, exCreator, "1000", 7⟩

def exPayMap : PayMap := [("0xdeadbeef", exPayment)]

/-- A `getResource` return buffer whose second string field declares length 100
but is followed by only 4 bytes of content ("abcd"): head words price 1,
lifetime 1, active 1, exists 1, contentType offset 224, contentRef offset 288,
totalPayments 0; then the contentType field (length 5, "video"), then the
truncated contentRef field. -/
def exTruncRet : String :=
  padUint 1 ++ padUint 1 ++ padUint 1 ++ padUint 1 ++ padUint 224 ++ padUint 288 ++ padUint 0 ++
  padUint 5 ++ (⟨padEndZ 64 "766964656f".data⟩ : String) ++ padUint 100 ++ "61626364"

def exTruncRes : Resource := ⟨1, true, true, true, "video", "abcd", 0⟩

/- ===== Numeral lemmas ===== -/

theorem decDigVal_decDigitChar (d : Nat) (h : d < 10) : decDigVal (decDigitChar d) = some d := by
  interval_cases d <;> decide

theorem hexDigVal_hexDigitChar (d : Nat) (h : d < 16) : hexDigVal (hexDigitChar d) = some d := by
  interval_cases d <;> decide

theorem decParse_natToDecAux : ∀ f n, n < f → decParse (natToDecAux f n) = some n := by
  intro f
  induction f with
  | zero => intro n h; omega
  | succ f ih =>
    intro n h
    by_cases h10 : n < 10
    · simp [natToDecAux, h10, decParse, decStep, decDigVal_decDigitChar n h10]
    · have hdivlt : n / 10 < f := by
        have := Nat.div_lt_self (by omega : 0 < n) (by omega : 1 < 10)
        omega
      have hmod : n % 10 < 10 := Nat.mod_lt _ (by omega)
      simp only [natToDecAux, h10, if_false, decParse, List.foldl_append]
      rw [show List.foldl decStep (some 0) (natToDecAux f (n / 10)) = some (n / 10) from
        ih (n / 10) hdivlt]
      simp [decStep, decDigVal_decDigitChar _ hmod]
      omega

theorem hexParse_natToHexAux : ∀ f n, n < f → hexParse (natToHexAux f n) = some n := by
  intro f
  induction f with
  | zero => intro n h; omega
  | succ f ih =>
    intro n h
    by_cases h16 : n < 16
    · simp [natToHexAux, h16, hexParse, hexStep, hexDigVal_hexDigitChar n h16]
    · have hdivlt : n / 16 < f := by
        have := Nat.div_lt_self (by omega : 0 < n) (by omega : 1 < 16)
        omega
      have hmod : n % 16 < 16 := Nat.mod_lt _ (by omega)
      simp only [natToHexAux, h16, if_false, hexParse, List.foldl_append]
      rw [show List.foldl hexStep (some 0) (natToHexAux f (n / 16)) = some (n / 16) from
        ih (n / 16) hdivlt]
      simp [hexStep, hexDigVal_hexDigitChar _ hmod]
      omega

theorem natToDecAux_ne_nil (f n : Nat) (h : n < f) : natToDecAux f n ≠ [] := by
  cases f with
  | zero => omega
  | succ f =>
    by_cases h10 : n < 10 <;> simp [natToDecAux, h10]

theorem natToHexAux_ne_nil (f n : Nat) (h : n < f) : natToHexAux f n ≠ [] := by
  cases f with
  | zero => omega
  | succ f =>
    by_cases h16 : n < 16 <;> simp [natToHexAux, h16]

theorem natToDecAux_digits : ∀ f n c, c ∈ natToDecAux f n → 48 ≤ c.toNat ∧ c.toNat ≤ 57 := by
  intro f
  induction f with
  | zero => intro n c h; simp [natToDecAux] at h
  | succ f ih =>
    intro n c h
    by_cases h10 : n < 10
    · simp [natToDecAux, h10] at h
      subst h
      interval_cases n <;> decide
    · simp only [natToDecAux, h10, if_false, List.mem_append, List.mem_singleton] at h
      rcases h with h | h
      · exact ih (n / 10) c h
      · subst h
        have hmod : n % 10 < 10 := Nat.mod_lt _ (by omega)
        interval_cases hm : n % 10 <;> decide

theorem natToHexAux_hexdigits : ∀ f n c, c ∈ natToHexAux f n → (hexDigVal c).isSome := by
  intro f
  induction f with
  | zero => intro n c h; simp [natToHexAux] at h
  | succ f ih =>
    intro n c h
    by_cases h16 : n < 16
    · simp [natToHexAux, h16] at h
      subst h
      interval_cases n <;> decide
    · simp only [natToHexAux, h16, if_false, List.mem_append, List.mem_singleton] at h
      rcases h with h | h
      · exact ih (n / 16) c h
      · subst h
        have hmod : n % 16 < 16 := Nat.mod_lt _ (by omega)
        interval_cases hm : n % 16 <;> decide

theorem natToHexAux_length_le : ∀ f n k, n < f → n < 16 ^ k → 1 ≤ k →
    (natToHexAux f n).length ≤ k := by
  intro f
  induction f with
  | zero => intro n k h; omega
  | succ f ih =>
    intro n k h hpow hk
    by_cases h16 : n < 16
    · simp [natToHexAux, h16]; omega
    · have hk2 : 2 ≤ k := by
        by_contra hlt
        have hk1 : k = 1 := by omega
        subst hk1
        simp [pow_one] at hpow
        omega
      have hdivlt : n / 16 < f := by
        have := Nat.div_lt_self (by omega : 0 < n) (by omega : 1 < 16)
        omega
      have hdivpow : n / 16 < 16 ^ (k - 1) := by
        rw [Nat.div_lt_iff_lt_mul (by omega : 0 < 16)]
        calc n < 16 ^ k := hpow
        _ = 16 ^ (k - 1) * 16 := by
            rw [← pow_succ]
            congr 1
            omega
      have := ih (n / 16) (k - 1) hdivlt hdivpow (by omega)
      simp only [natToHexAux, h16, if_false, List.length_append, List.length_singleton]
      omega

theorem decParse_leading_zeros : ∀ k l, decParse (List.replicate k '0' ++ l) = decParse l := by
  intro k
  induction k with
  | zero => intro l; simp
  | succ k ih =>
    intro l
    have : List.replicate (k + 1) '0' ++ l = '0' :: (List.replicate k '0' ++ l) := by
      simp [List.replicate_succ]
    rw [this]
    show List.foldl decStep (decStep (some 0) '0') _ = _
    have : decStep (some 0) '0' = some 0 := by decide
    rw [this]
    exact ih l

theorem hexParse_leading_zeros : ∀ k l, hexParse (List.replicate k '0' ++ l) = hexParse l := by
  intro k
  induction k with
  | zero => intro l; simp
  | succ k ih =>
    intro l
    have : List.replicate (k + 1) '0' ++ l = '0' :: (List.replicate k '0' ++ l) := by
      simp [List.replicate_succ]
    rw [this]
    show List.foldl hexStep (hexStep (some 0) '0') _ = _
    have : hexStep (some 0) '0' = some 0 := by decide
    rw [this]
    exact ih l

theorem decParse_natToDecList (n : Nat) : decParse (natToDecList n) = some n :=
  decParse_natToDecAux (n + 1) n (Nat.lt_succ_self n)

theorem hexParse_natToHexList (n : Nat) : hexParse (natToHexList n) = some n :=
  hexParse_natToHexAux (n + 1) n (Nat.lt_succ_self n)

/-- `hexToNat?` inverts `padUint` for any value fitting in one 32-byte word. -/
theorem hexToNat_padUint (n : Nat) : hexToNat? (padUint n) = some n := by
  have hne : natToHexList n ≠ [] := natToHexAux_ne_nil _ _ (Nat.lt_succ_self n)
  have : (padStartZ 64 (natToHexList n)).isEmpty = false := by
    simp [padStartZ, List.isEmpty_iff]
    intro _
    exact hne
  simp only [hexToNat?, padUint, this, Bool.false_eq_true, if_false]
  show hexParse (List.replicate _ '0' ++ natToHexList n) = some n
  rw [hexParse_leading_zeros, hexParse_natToHexList]

theorem padUint_length (n : Nat) (h : n < 16 ^ 64) : (padUint n).length = 64 := by
  have hle : (natToHexList n).length ≤ 64 :=
    natToHexAux_length_le (n + 1) n 64 (Nat.lt_succ_self n) h (by omega)
  show (padStartZ 64 (natToHexList n)).length = 64
  simp [padStartZ]
  omega

/- ===== splitDot and stripZeros lemmas ===== -/

theorem splitDotAux_noDot : ∀ (a acc : List Char), (∀ c ∈ a, c ≠ '.') →
    splitDotAux a acc = [acc.reverse ++ a] := by
  intro a
  induction a with
  | nil => intro acc _; simp [splitDotAux]
  | cons c cs ih =>
    intro acc h
    have hc : (c == '.') = false := by
      simp only [beq_eq_false_iff_ne]
      exact h c (by simp)
    simp only [splitDotAux, hc, Bool.false_eq_true, if_false]
    rw [ih (c :: acc) (fun x hx => h x (by simp [hx]))]
    simp

theorem splitDotAux_dot : ∀ (a acc b : List Char), (∀ c ∈ a, c ≠ '.') → (∀ c ∈ b, c ≠ '.') →
    splitDotAux (a ++ '.' :: b) acc = [acc.reverse ++ a, b] := by
  intro a
  induction a with
  | nil =>
    intro acc b _ hb
    simp only [List.nil_append, splitDotAux, beq_self_eq_true, if_true]
    rw [splitDotAux_noDot b [] hb]
    simp
  | cons c cs ih =>
    intro acc b h hb
    have hc : (c == '.') = false := by
      simp only [beq_eq_false_iff_ne]
      exact h c (by simp)
    simp only [List.cons_append, splitDotAux, hc, Bool.false_eq_true, if_false, List.append_eq]
    rw [ih (c :: acc) b (fun x hx => h x (by simp [hx])) hb]
    simp

theorem stripZeros_append (l : List Char) :
    stripZeros l ++ List.replicate (l.length - (stripZeros l).length) '0' = l := by
  unfold stripZeros
  have hTD : l.reverse.takeWhile (fun c => c == '0') ++ l.reverse.dropWhile (fun c => c == '0') =
      l.reverse := List.takeWhile_append_dropWhile (p := fun c => c == '0') (l := l.reverse)
  have hTzero : l.reverse.takeWhile (fun c => c == '0') =
      List.replicate (l.reverse.takeWhile (fun c => c == '0')).length '0' := by
    apply List.eq_replicate_of_mem
    intro b hb
    have := List.mem_takeWhile_imp hb
    simpa using this
  have hlrev : l = (l.reverse.dropWhile (fun c => c == '0')).reverse ++
      (l.reverse.takeWhile (fun c => c == '0')).reverse := by
    have h2 : (l.reverse.takeWhile (fun c => c == '0') ++
        l.reverse.dropWhile (fun c => c == '0')).reverse = l := by
      rw [hTD]
      simp
    conv_lhs => rw [← h2]
    rw [List.reverse_append]
  have hlen : l.length = (l.reverse.takeWhile (fun c => c == '0')).length +
      (l.reverse.dropWhile (fun c => c == '0')).length := by
    have h2 := congrArg List.length hTD
    simp only [List.length_append, List.length_reverse] at h2
    omega
  have hTrev : (l.reverse.takeWhile (fun c => c == '0')).reverse =
      List.replicate (l.reverse.takeWhile (fun c => c == '0')).length '0' := by
    conv_lhs => rw [hTzero]
    simp
  conv_rhs => rw [hlrev]
  congr 1
  rw [hTrev]
  congr 1
  simp only [List.length_reverse]
  omega

theorem stripZeros_length_le (l : List Char) : (stripZeros l).length ≤ l.length := by
  have := congrArg List.length (stripZeros_append l)
  simp only [List.length_append, List.length_replicate] at this
  omega

theorem stripZeros_subset (l : List Char) (c : Char) (h : c ∈ stripZeros l) : c ∈ l := by
  have hsa := stripZeros_append l
  rw [← hsa]
  exact List.mem_append.2 (Or.inl h)

/- ===== C10: toWei / fromWei round trip ===== -/

theorem toWeiVal_recover (P : List Char) (w : Nat)
    (hPd : ∀ c ∈ P, 48 ≤ c.toNat ∧ c.toNat ≤ 57)
    (hPlen : 19 ≤ P.length)
    (hparse : decParse P = some w) :
    toWeiVal (if (stripZeros (P.drop (P.length - 18))).isEmpty
              then (⟨if (P.take (P.length - 18)).isEmpty then ['0']
                     else P.take (P.length - 18)⟩ : String)
              else ⟨(if (P.take (P.length - 18)).isEmpty then ['0']
                     else P.take (P.length - 18)) ++
                    '.' :: stripZeros (P.drop (P.length - 18))⟩) = some w := by
  have hnodot : ∀ c ∈ P, c ≠ '.' := by
    intro c hc he
    subst he
    have := hPd _ hc
    revert this
    decide
  have hW0len : (P.take (P.length - 18)).length = P.length - 18 := by
    rw [List.length_take]
    omega
  have hW0e : (P.take (P.length - 18)).isEmpty = false := by
    cases hE : (P.take (P.length - 18)).isEmpty
    · rfl
    · exfalso
      have := List.isEmpty_iff.1 hE
      have hl := congrArg List.length this
      rw [hW0len] at hl
      simp at hl
      omega
  have hW0nodot : ∀ c ∈ P.take (P.length - 18), c ≠ '.' :=
    fun c hc => hnodot c (List.take_subset _ _ hc)
  have hFlen : (P.drop (P.length - 18)).length = 18 := by
    rw [List.length_drop]
    omega
  have hZnodot : ∀ c ∈ stripZeros (P.drop (P.length - 18)), c ≠ '.' :=
    fun c hc => hnodot c (List.drop_subset _ _ (stripZeros_subset _ c hc))
  have hZlen : (stripZeros (P.drop (P.length - 18))).length ≤ 18 := by
    have := stripZeros_length_le (P.drop (P.length - 18))
    omega
  have hZF : stripZeros (P.drop (P.length - 18)) ++
      List.replicate (18 - (stripZeros (P.drop (P.length - 18))).length) '0' =
      P.drop (P.length - 18) := by
    have := stripZeros_append (P.drop (P.length - 18))
    rwa [hFlen] at this
  cases hZ : (stripZeros (P.drop (P.length - 18))).isEmpty
  · -- fraction nonempty: the rendered string is whole ++ '.' ++ frac
    simp only [hZ, Bool.false_eq_true, if_false, hW0e]
    simp only [toWeiVal, splitDot]
    rw [splitDotAux_dot (P.take (P.length - 18)) []
        (stripZeros (P.drop (P.length - 18))) hW0nodot hZnodot]
    simp only [List.reverse_nil, List.nil_append, List.getD_cons_zero, hW0e,
      Bool.false_eq_true, if_false]
    have hgetD1 : ∀ (x z : List Char), ([x, z] : List (List Char)).getD 1 [] = z := fun x z => rfl
    rw [hgetD1]
    have hpadlen : (padEndZ 18 (stripZeros (P.drop (P.length - 18)))).length = 18 := by
      simp only [padEndZ, List.length_append, List.length_replicate]
      omega
    have htake : List.take 18 (padEndZ 18 (stripZeros (P.drop (P.length - 18)))) =
        padEndZ 18 (stripZeros (P.drop (P.length - 18))) :=
      List.take_of_length_le (by rw [hpadlen])
    rw [htake]
    have : padEndZ 18 (stripZeros (P.drop (P.length - 18))) = P.drop (P.length - 18) := by
      rw [padEndZ]
      exact hZF
    rw [this, List.take_append_drop, hparse]
  · -- fraction empty: the rendered string is just the whole part
    simp only [hZ, if_true, hW0e, Bool.false_eq_true, if_false]
    simp only [toWeiVal, splitDot]
    rw [splitDotAux_noDot (P.take (P.length - 18)) [] hW0nodot]
    simp only [List.reverse_nil, List.nil_append, List.getD_cons_zero, hW0e,
      Bool.false_eq_true, if_false]
    have hgetD1 : ∀ (x : List Char), ([x] : List (List Char)).getD 1 [] = [] := fun x => rfl
    rw [hgetD1]
    have hZnil : stripZeros (P.drop (P.length - 18)) = [] := List.isEmpty_iff.1 hZ
    have hFrep : P.drop (P.length - 18) = List.replicate 18 '0' := by
      rw [← hZF, hZnil]
      simp
    have hpad : padEndZ 18 ([] : List Char) = List.replicate 18 '0' := by
      simp [padEndZ]
    have htake : List.take 18 (List.replicate 18 '0') = List.replicate 18 '0' :=
      List.take_of_length_le (by simp)
    rw [hpad, htake, ← hFrep, List.take_append_drop, hparse]

/-- Claim C10: the server's decimal-APTM-to-wei parser (`toWei`) and the
widget's wei-to-decimal formatter (`fromWei`) are mutually inverse: for every
non-negative integer `w`, parsing the formatter's output recovers `w` exactly
(`toWei(fromWei(w)) == w`), with `fromWei` trimming trailing fractional zeros
and `toWei` right-padding the fraction back to 18 digits in exact integer
arithmetic. -/
theorem toWei_fromWei_roundtrip (w : Nat) :
    toWeiVal (fromWei w) = some w ∧ toWei (fromWei w) = some (natToDecStr w) := by
  have hPd : ∀ c ∈ padStartZ 19 (natToDecList w), 48 ≤ c.toNat ∧ c.toNat ≤ 57 := by
    intro c hc
    rcases List.mem_append.1 hc with h | h
    · have := List.eq_of_mem_replicate h
      subst this
      decide
    · exact natToDecAux_digits _ _ c h
  have hPlen : 19 ≤ (padStartZ 19 (natToDecList w)).length := by
    simp only [padStartZ, List.length_append, List.length_replicate]
    omega
  have hparse : decParse (padStartZ 19 (natToDecList w)) = some w := by
    rw [padStartZ, decParse_leading_zeros, decParse_natToDecList]
  have h1 : toWeiVal (fromWei w) = some w := by
    have := toWeiVal_recover (padStartZ 19 (natToDecList w)) w hPd hPlen hparse
    exact this
  exact ⟨h1, by rw [toWei, h1]; rfl⟩

/- ===== Byte/hex codec lemmas ===== -/

theorem natToHexList_lt16 (b : Nat) (h : b < 16) : natToHexList b = [hexDigitChar b] := by
  simp [natToHexList, natToHexAux, h]

theorem natToHexList_two (b : Nat) (h16 : 16 ≤ b) (h256 : b < 256) :
    natToHexList b = [hexDigitChar (b / 16), hexDigitChar (b % 16)] := by
  have hb : ¬ b < 16 := by omega
  have hdiv : b / 16 < 16 := by omega
  obtain ⟨f, rfl⟩ : ∃ f, b = f + 1 := ⟨b - 1, by omega⟩
  simp [natToHexList, natToHexAux, hb, hdiv]

theorem byteToHexList_length (b : Nat) (h : b < 256) : (byteToHexList b).length = 2 := by
  by_cases h16 : b < 16
  · simp [byteToHexList, natToHexList_lt16 b h16, padStartZ]
  · rw [byteToHexList, natToHexList_two b (by omega) h]
    simp [padStartZ]

theorem hexStrAux_byte (b : Nat) (h : b < 256) (rest : List Char) :
    hexStrAux (byteToHexList b ++ rest) = Char.ofNat b :: hexStrAux rest := by
  by_cases h16 : b < 16
  · have hbl : byteToHexList b = ['0', hexDigitChar b] := by
      simp [byteToHexList, natToHexList_lt16 b h16, padStartZ, List.replicate_succ]
    rw [hbl]
    simp only [List.cons_append, List.nil_append, hexStrAux]
    congr 1
    have h0 : hexDigVal '0' = some 0 := by decide
    have hd : hexDigVal (hexDigitChar b) = some b := hexDigVal_hexDigitChar b h16
    simp [parseIntHex2, h0, hd]
  · have hbl : byteToHexList b = [hexDigitChar (b / 16), hexDigitChar (b % 16)] := by
      rw [byteToHexList, natToHexList_two b (by omega) h]
      simp [padStartZ]
    rw [hbl]
    simp only [List.cons_append, List.nil_append, hexStrAux]
    congr 1
    have hd1 : hexDigVal (hexDigitChar (b / 16)) = some (b / 16) :=
      hexDigVal_hexDigitChar _ (by omega)
    have hd2 : hexDigVal (hexDigitChar (b % 16)) = some (b % 16) :=
      hexDigVal_hexDigitChar _ (by omega)
    have harith : 16 * (b / 16) + b % 16 = b := by omega
    simp [parseIntHex2, hd1, hd2, harith]

theorem hexStrAux_bytesToHex (bs : List Nat) (h : ∀ b ∈ bs, b < 256) :
    hexStrAux (bytesToHex bs) = bs.map Char.ofNat := by
  induction bs with
  | nil => simp [bytesToHex, hexStrAux]
  | cons b bs ih =>
    simp only [bytesToHex]
    rw [hexStrAux_byte b (h b (by simp)) (bytesToHex bs),
        ih (fun x hx => h x (by simp [hx]))]
    simp

theorem bytesToHex_length (bs : List Nat) (h : ∀ b ∈ bs, b < 256) :
    (bytesToHex bs).length = 2 * bs.length := by
  induction bs with
  | nil => simp [bytesToHex]
  | cons b bs ih =>
    simp only [bytesToHex, List.length_append, List.length_cons]
    rw [byteToHexList_length b (h b (by simp)), ih (fun x hx => h x (by simp [hx]))]
    omega

theorem utf8EncodeChar_ascii (c : Char) (h : c.toNat < 128) : utf8EncodeChar c = [c.toNat] := by
  simp [utf8EncodeChar, h]

theorem utf8Bytes_ascii (s : String) (h : ∀ c ∈ s.data, c.toNat < 128) :
    utf8Bytes s = s.data.map Char.toNat := by
  suffices hgen : ∀ l : List Char, (∀ c ∈ l, c.toNat < 128) →
      l.flatMap utf8EncodeChar = l.map Char.toNat from hgen s.data h
  intro l
  induction l with
  | nil => intro _; rfl
  | cons c cs ih =>
    intro hl
    rw [List.flatMap_cons, utf8EncodeChar_ascii c (hl c (by simp)),
        ih (fun x hx => hl x (by simp [hx]))]
    simp

theorem map_ofNat_toNat (l : List Char) : (l.map Char.toNat).map Char.ofNat = l := by
  induction l with
  | nil => rfl
  | cons c cs ih => simp [ih, Char.ofNat_toNat]

/- ===== C8: codec round trip ===== -/

theorem decode_encStr_ascii (s : String) (hascii : ∀ c ∈ s.data, c.toNat < 128)
    (hlen : s.data.length < 16 ^ 64) :
    decodeOneStringReturn (getResourceCalldataBody s) = .ok s := by
  have hB : utf8Bytes s = s.data.map Char.toNat := utf8Bytes_ascii s hascii
  have hBlt : ∀ b ∈ utf8Bytes s, b < 256 := by
    rw [hB]
    intro b hb
    obtain ⟨c, hc, rfl⟩ := List.mem_map.1 hb
    have := hascii c hc
    omega
  have hBlen : (utf8Bytes s).length = s.data.length := by
    rw [hB, List.length_map]
  have hHlen : (bytesToHex (utf8Bytes s)).length = (utf8Bytes s).length * 2 := by
    rw [bytesToHex_length _ hBlt]
    omega
  have hAlen : (padUint 32).data.length = 64 := padUint_length 32 (by decide)
  have hLlen : (padStartZ 64 (natToHexList (utf8Bytes s).length)).length = 64 := by
    have hb : (natToHexList (utf8Bytes s).length).length ≤ 64 :=
      natToHexAux_length_le _ _ 64 (Nat.lt_succ_self _) (by rw [hBlen]; exact hlen) (by omega)
    simp only [padStartZ, List.length_append, List.length_replicate]
    omega
  have hdata : (getResourceCalldataBody s).data =
      (padUint 32).data ++ (padStartZ 64 (natToHexList (utf8Bytes s).length) ++
        (bytesToHex (utf8Bytes s) ++
          List.replicate (ceil64 (bytesToHex (utf8Bytes s)).length -
            (bytesToHex (utf8Bytes s)).length) '0')) := rfl
  have hslice0 : strSlice (getResourceCalldataBody s) 0 64 = padUint 32 := by
    have hlist : (((getResourceCalldataBody s).data.take 64).drop 0) = (padUint 32).data := by
      rw [hdata, List.drop_zero, List.take_left' hAlen]
    show (⟨((getResourceCalldataBody s).data.take 64).drop 0⟩ : String) = padUint 32
    rw [hlist]
  have hslice1 : strSlice (getResourceCalldataBody s) 64 128 =
      padUint (utf8Bytes s).length := by
    have h1 : (padStartZ 64 (natToHexList (utf8Bytes s).length) ++
        (bytesToHex (utf8Bytes s) ++
          List.replicate (ceil64 (bytesToHex (utf8Bytes s)).length -
            (bytesToHex (utf8Bytes s)).length) '0')).take 64 =
        padStartZ 64 (natToHexList (utf8Bytes s).length) :=
      List.take_left' hLlen
    have h2 : ((getResourceCalldataBody s).data.take 128).drop 64 =
        padStartZ 64 (natToHexList (utf8Bytes s).length) := by
      rw [hdata, List.take_append_eq_append_take]
      have hA128 : (padUint 32).data.take 128 = (padUint 32).data :=
        List.take_of_length_le (by rw [hAlen]; omega)
      have hsub : 128 - (padUint 32).data.length = 64 := by rw [hAlen]
      rw [hA128, hsub, h1, List.drop_left' hAlen]
    show (⟨((getResourceCalldataBody s).data.take 128).drop 64⟩ : String) = _
    rw [h2]
    rfl
  have hcontent : strSlice (getResourceCalldataBody s) 128 (128 + (utf8Bytes s).length * 2) =
      (⟨bytesToHex (utf8Bytes s)⟩ : String) := by
    have hassoc : (getResourceCalldataBody s).data =
        ((padUint 32).data ++ padStartZ 64 (natToHexList (utf8Bytes s).length)) ++
        (bytesToHex (utf8Bytes s) ++
          List.replicate (ceil64 (bytesToHex (utf8Bytes s)).length -
            (bytesToHex (utf8Bytes s)).length) '0') := by
      rw [hdata, List.append_assoc]
    have hABlen : ((padUint 32).data ++
        padStartZ 64 (natToHexList (utf8Bytes s).length)).length = 128 := by
      rw [List.length_append, hAlen, hLlen]
    have htake : (getResourceCalldataBody s).data.take (128 + (utf8Bytes s).length * 2) =
        ((padUint 32).data ++ padStartZ 64 (natToHexList (utf8Bytes s).length)) ++
        (bytesToHex (utf8Bytes s) ++
          List.replicate (ceil64 (bytesToHex (utf8Bytes s)).length -
            (bytesToHex (utf8Bytes s)).length) '0').take ((utf8Bytes s).length * 2) := by
      rw [hassoc, List.take_append_eq_append_take]
      have hA2 : ((padUint 32).data ++
          padStartZ 64 (natToHexList (utf8Bytes s).length)).take
          (128 + (utf8Bytes s).length * 2) =
          (padUint 32).data ++ padStartZ 64 (natToHexList (utf8Bytes s).length) :=
        List.take_of_length_le (by rw [hABlen]; omega)
      have hsub : 128 + (utf8Bytes s).length * 2 -
          ((padUint 32).data ++ padStartZ 64 (natToHexList (utf8Bytes s).length)).length =
          (utf8Bytes s).length * 2 := by rw [hABlen]; omega
      rw [hA2, hsub]
    have hinner : (bytesToHex (utf8Bytes s) ++
        List.replicate (ceil64 (bytesToHex (utf8Bytes s)).length -
          (bytesToHex (utf8Bytes s)).length) '0').take ((utf8Bytes s).length * 2) =
        bytesToHex (utf8Bytes s) :=
      List.take_left' hHlen
    show (⟨((getResourceCalldataBody s).data.take (128 + (utf8Bytes s).length * 2)).drop 128⟩ :
      String) = _
    rw [htake, hinner, List.drop_left' hABlen]
  have hdecoded : hexStr (⟨bytesToHex (utf8Bytes s)⟩ : String) = s := by
    show (⟨hexStrAux (bytesToHex (utf8Bytes s))⟩ : String) = s
    rw [hexStrAux_bytesToHex _ hBlt, hB, map_ofNat_toNat]
  show decodeOneStringReturn (getResourceCalldataBody s) = .ok s
  unfold decodeOneStringReturn
  rw [hslice0, hexToNat_padUint 32]
  show decodeStringField (getResourceCalldataBody s) 64 = .ok s
  unfold decodeStringField
  rw [hslice1, hexToNat_padUint ((utf8Bytes s).length)]
  show Except.ok (hexStr (strSlice (getResourceCalldataBody s) 128
    (128 + (utf8Bytes s).length * 2))) = .ok s
  rw [hcontent, hdecoded]

/- ===== C7: decoder never reads past the buffer ===== -/

theorem hexStrAux_length : ∀ l : List Char, 2 * (hexStrAux l).length ≤ l.length + 1
  | [] => by simp [hexStrAux]
  | [_] => by simp [hexStrAux]
  | _ :: _ :: rest => by
    simp only [hexStrAux, List.length_cons]
    have := hexStrAux_length rest
    omega

theorem decodeStringField_ok_length (d : String) (off : Nat) (str : String)
    (h : decodeStringField d off = .ok str) : 2 * str.length ≤ d.length + 1 := by
  unfold decodeStringField at h
  cases hx : hexToNat? (strSlice d off (off + 64)) with
  | none => rw [hx] at h; exact absurd h (by simp)
  | some len =>
    rw [hx] at h
    injection h with h2
    subst h2
    show 2 * (hexStrAux (strSlice d (off + 64) (off + 64 + len * 2)).data).length ≤ d.length + 1
    have hb := hexStrAux_length (strSlice d (off + 64) (off + 64 + len * 2)).data
    have hs : (strSlice d (off + 64) (off + 64 + len * 2)).data.length ≤ d.length := by
      show ((d.data.take _).drop _).length ≤ d.data.length
      rw [List.length_drop, List.length_take]
      omega
    omega

theorem decodeResource_ok_strings (d : String) (r : Resource) (h : decodeResource d = .ok r) :
    2 * r.contentType.length ≤ d.length + 1 ∧ 2 * r.contentRef.length ≤ d.length + 1 := by
  unfold decodeResource at h
  repeat' split at h
  any_goals exact Except.noConfusion h
  injection h with h2
  subst h2
  constructor
  · exact decodeStringField_ok_length _ _ _ (by assumption)
  · exact decodeStringField_ok_length _ _ _ (by assumption)

theorem decodeResource_offset_past_end (d : String) (tOff : Nat)
    (p1 : (hexToNat? (strSlice d 0 64)).isSome)
    (p2 : (hexToNat? (strSlice d 64 128)).isSome)
    (p3 : (hexToNat? (strSlice d 128 192)).isSome)
    (p4 : (hexToNat? (strSlice d 192 256)).isSome)
    (p5 : hexToNat? (strSlice d 256 320) = some tOff)
    (hpast : d.length ≤ tOff * 2) :
    decodeResource d = .error () := by
  obtain ⟨v1, h1⟩ := Option.isSome_iff_exists.1 p1
  obtain ⟨v2, h2⟩ := Option.isSome_iff_exists.1 p2
  obtain ⟨v3, h3⟩ := Option.isSome_iff_exists.1 p3
  obtain ⟨v4, h4⟩ := Option.isSome_iff_exists.1 p4
  have hempty : strSlice d (tOff * 2) (tOff * 2 + 64) = (⟨[]⟩ : String) := by
    show (⟨(d.data.take (tOff * 2 + 64)).drop (tOff * 2)⟩ : String) = ⟨[]⟩
    have : (d.data.take (tOff * 2 + 64)).drop (tOff * 2) = [] := by
      apply List.drop_eq_nil_of_le
      rw [List.length_take]
      have : d.data.length = d.length := rfl
      omega
    rw [this]
  have hfield : decodeStringField d (tOff * 2) = .error () := by
    unfold decodeStringField
    rw [hempty]
    rfl
  unfold decodeResource
  simp only [h1, h2, h3, h4, p5, hfield]

/- ===== Scan and verify lemmas ===== -/


theorem scanLogs_eq_find (cfg : Config) : ∀ logs : List Log, (∀ l ∈ logs, LogWF l) →
    scanLogs cfg logs = .ok ((logs.find? (qualifies cfg)).map fun l =>
      (⟨payerOf l, creatorOf l, amountOf l⟩ : VerifiedLog)) := by
  intro logs
  induction logs with
  | nil => intro _; rfl
  | cons log rest ih =>
    intro hwf
    have hwfl : LogWF log := hwf log (by simp)
    have hwfr : ∀ l ∈ rest, LogWF l := fun l hl => hwf l (by simp [hl])
    by_cases h1 : log.topics.length < 3
    · have hq : qualifies cfg log = false := by simp [qualifies, h1]
      rw [List.find?_cons_of_neg _ (by simp [hq])]
      simp only [scanLogs, h1, if_true]
      exact ih hwfr
    · cases h2 : (strLower (creatorOf log) == strLower cfg.creatorAddress) with
      | false =>
        have hq : qualifies cfg log = false := by simp [qualifies, h2]
        rw [List.find?_cons_of_neg _ (by simp [hq])]
        simp only [scanLogs, h1, if_false, h2, Bool.not_false, if_true]
        exact ih hwfr
      | true =>
        by_cases h3 : (strFrom log.data 2).length < 128
        · have hq : qualifies cfg log = false := by simp [qualifies, h3]
          rw [List.find?_cons_of_neg _ (by simp [hq])]
          simp only [scanLogs, h1, if_false, h2, Bool.not_true, Bool.false_eq_true, h3, if_true]
          exact ih hwfr
        · have hsome : (hexToNat? (strSlice (strFrom log.data 2) 64 128)).isSome :=
            hwfl (by omega)
          obtain ⟨a, ha⟩ := Option.isSome_iff_exists.1 hsome
          have hamt : amountOf log = a := by rw [amountOf, ha]; rfl
          by_cases h4 : a < cfg.priceWei
          · have hq : qualifies cfg log = false := by simp [qualifies, hamt, h4]
            rw [List.find?_cons_of_neg _ (by simp [hq])]
            simp only [scanLogs, h1, if_false, h2, Bool.not_true, Bool.false_eq_true, h3,
              ha, h4, if_true]
            exact ih hwfr
          · have hq : qualifies cfg log = true := by
              simp [qualifies, h1, h2, h3, hamt, h4]
            rw [List.find?_cons_of_pos _ hq]
            simp only [scanLogs, h1, if_false, h2, Bool.not_true, Bool.false_eq_true, h3,
              ha, h4, if_false]
            rw [← hamt]
            rfl

theorem lookupPay_insertPay_self : ∀ (pm : PayMap) (k : String) (v : Payment),
    lookupPay (insertPay pm k v) k = some v := by
  intro pm k v
  induction pm with
  | nil => simp [insertPay, lookupPay]
  | cons kv rest ih =>
    obtain ⟨k0, v0⟩ := kv
    cases hk : k0 == k with
    | true => simp [insertPay, lookupPay, hk]
    | false => simp [insertPay, lookupPay, hk, ih]

/-- The payments table after one verify run, as a function of its outcome:
unchanged except on a fresh successful verification, which inserts the record
under the normalized hash. -/
theorem verify_payments_characterization (cfg : Config) (pm : PayMap) (chain : Chain)
    (now : Nat) (t : String) :
    (verify cfg pm chain now t).2.1 =
      match (verify cfg pm chain now t).1 with
      | .verified p c a => insertPay pm (strLower t) ⟨true, p, c, natToDecStr a, now⟩
      | _ => pm := by
  simp only [verify]
  repeat' split
  all_goals try rfl
  all_goals simp_all

/- ===== Claim theorems: the verifier state machine ===== -/

/-- Claim C1: with the fast path missed, a successful receipt, and the correct
destination, the verifier scans the contract-filtered logs in order and returns
Verified exactly on the first log whose decoded beneficiary (topic 2) equals the
configured creator and whose decoded amount is at least the configured price
(equality succeeds); non-matching logs are skipped without aborting, so a later
qualifying log still verifies, and if no log qualifies the outcome is a
terminal rejection. -/
theorem verify_first_qualifying_log (cfg : Config) (pm : PayMap) (chain : Chain) (now : Nat)
    (t : String) (r : Receipt) (txo : Option Tx)
    (hfast : fastPathHit pm t = false)
    (hrec : chain.receipt = .ok (some r))
    (hstat : r.status = "0x1")
    (htx : chain.txn = .ok txo)
    (hdest : destOk cfg txo = true)
    (hwf : ∀ l ∈ contractLogsOf cfg r, LogWF l) :
    ((contractLogsOf cfg r).find? (qualifies cfg) = none →
      isRejected (verify cfg pm chain now t).1 = true ∧
      isVerifiedResp (verify cfg pm chain now t).1 = false) ∧
    (∀ l, (contractLogsOf cfg r).find? (qualifies cfg) = some l →
      (verify cfg pm chain now t).1 = .verified (payerOf l) (creatorOf l) (amountOf l)) := by
  have hred : verify cfg pm chain now t =
      (if (contractLogsOf cfg r).isEmpty then (Outcome.noContractEvents, pm, 2)
       else match scanLogs cfg (contractLogsOf cfg r) with
            | .error _ => (Outcome.caughtError, pm, 2)
            | .ok none => (Outcome.noMatchingEvent, pm, 2)
            | .ok (some v) => (Outcome.verified v.payer v.creator v.amount,
                insertPay pm (strLower t)
                  ⟨true, v.payer, v.creator, natToDecStr v.amount, now⟩, 2)) := by
    simp only [verify, hfast, Bool.false_eq_true, if_false, hrec, hstat, beq_self_eq_true,
      Bool.not_true, htx, hdest]
  constructor
  · intro hnone
    cases hemp : (contractLogsOf cfg r).isEmpty with
    | true =>
      rw [hred]
      simp only [hemp, if_true]
      exact ⟨rfl, rfl⟩
    | false =>
      rw [hred]
      simp only [hemp, Bool.false_eq_true, if_false]
      rw [scanLogs_eq_find cfg _ hwf, hnone]
      exact ⟨rfl, rfl⟩
  · intro l hl
    have hmem := List.mem_of_find?_eq_some hl
    have hemp : (contractLogsOf cfg r).isEmpty = false := by
      cases hcl : contractLogsOf cfg r with
      | nil => rw [hcl] at hmem; simp at hmem
      | cons x xs => rfl
    rw [hred]
    simp only [hemp, Bool.false_eq_true, if_false]
    rw [scanLogs_eq_find cfg _ hwf, hl]
    rfl

/-- Claim C1 witness: a receipt with a first log paying 500 (below price 1000,
skipped) and a second log paying exactly 1000 verifies with the second log's
payer, creator, and amount — equality at the boundary succeeds and the scan
does not abort on the underpaying log. -/
theorem verify_first_qualifying_log_witness :
    (verify exCfg [] exChain 7 "0xDEADBEEF").1 = .verified exPayer exCreator 1000 := by
  have happ := (verify_first_qualifying_log exCfg [] exChain 7 "0xDEADBEEF" exReceipt
    (some ⟨some "0xCafe0000000000000000000000000000000000cA"⟩)
    (by decide) rfl rfl rfl (by decide) (by decide)).2
  have hfind : (contractLogsOf exCfg exReceipt).find? (qualifies exCfg) = some exOkLog := by
    decide
  rw [happ exOkLog hfind]
  decide

/-- Claim C2: when a transaction's receipt has a status other than success
(and no verified record short-circuits the run), verify returns the terminal
Reverted rejection and never a verified response, regardless of the receipt's
logs. -/
theorem verify_reverted_fail_closed (cfg : Config) (pm : PayMap) (chain : Chain) (now : Nat)
    (t : String) (r : Receipt)
    (hfast : fastPathHit pm t = false)
    (hrec : chain.receipt = .ok (some r))
    (hstat : (r.status == "0x1") = false) :
    (verify cfg pm chain now t).1 = .reverted ∧
    isVerifiedResp (verify cfg pm chain now t).1 = false := by
  have hred : verify cfg pm chain now t = (.reverted, pm, 1) := by
    simp only [verify, hfast, Bool.false_eq_true, if_false, hrec, hstat, Bool.not_false, if_true]
  rw [hred]
  exact ⟨rfl, rfl⟩

/-- Claim C2 witness: a reverted receipt (status 0x0) whose single log would
otherwise qualify still yields Reverted. -/
theorem verify_reverted_fail_closed_witness :
    (verify exCfg [] exChainReverted 7 "0xDEADBEEF").1 = .reverted ∧
    isVerifiedResp (verify exCfg [] exChainReverted 7 "0xDEADBEEF").1 = false :=
  verify_reverted_fail_closed exCfg [] exChainReverted 7 "0xDEADBEEF" ⟨"0x0", [exOkLog]⟩
    (by decide) rfl (by decide)

/-- Claim C3: when the transaction's destination differs (case-insensitively)
from the configured contract address — or the transaction is absent — the run
ends in the terminal wrong-destination rejection and never a verified response,
even if the receipt holds qualifying logs. -/
theorem verify_wrong_destination (cfg : Config) (pm : PayMap) (chain : Chain) (now : Nat)
    (t : String) (r : Receipt) (txo : Option Tx)
    (hfast : fastPathHit pm t = false)
    (hrec : chain.receipt = .ok (some r))
    (hstat : r.status = "0x1")
    (htx : chain.txn = .ok txo)
    (hdest : destOk cfg txo = false) :
    (verify cfg pm chain now t).1 = .wrongDestination ∧
    isRejected (verify cfg pm chain now t).1 = true ∧
    isVerifiedResp (verify cfg pm chain now t).1 = false := by
  have hred : verify cfg pm chain now t = (.wrongDestination, pm, 2) := by
    simp only [verify, hfast, Bool.false_eq_true, if_false, hrec, hstat, beq_self_eq_true,
      Bool.not_true, htx, hdest, Bool.not_false, if_true]
  rw [hred]
  exact ⟨rfl, rfl, rfl⟩

/-- Claim C3 witness: the same receipt that verifies in the C1 witness is
rejected when the transaction's `to` is a different address. -/
theorem verify_wrong_destination_witness :
    (verify exCfg [] exChainWrongDest 7 "0xDEADBEEF").1 = .wrongDestination ∧
    isRejected (verify exCfg [] exChainWrongDest 7 "0xDEADBEEF").1 = true ∧
    isVerifiedResp (verify exCfg [] exChainWrongDest 7 "0xDEADBEEF").1 = false :=
  verify_wrong_destination exCfg [] exChainWrongDest 7 "0xDEADBEEF" exReceipt
    (some ⟨some "0x1111111111111111111111111111111111111111"⟩)
    (by decide) rfl rfl rfl (by decide)

/-- Claim C5: with no receipt available, verify distinguishes a missing
transaction (terminal not-found rejection) from an existing but unmined one
(non-terminal Pending, not a rejection); neither is a verified response. -/
theorem verify_no_receipt_distinguishes (cfg : Config) (pm : PayMap) (chain : Chain)
    (now : Nat) (t : String) (txo : Option Tx)
    (hfast : fastPathHit pm t = false)
    (hrec : chain.receipt = .ok none)
    (htx : chain.txn = .ok txo) :
    (verify cfg pm chain now t).1 =
      (match txo with | none => Outcome.notFound | some _ => Outcome.pending) ∧
    isVerifiedResp (verify cfg pm chain now t).1 = false ∧
    (txo = none → isRejected (verify cfg pm chain now t).1 = true) ∧
    (∀ x, txo = some x → isRejected (verify cfg pm chain now t).1 = false) := by
  have hred : verify cfg pm chain now t =
      ((match txo with | none => Outcome.notFound | some _ => Outcome.pending), pm, 2) := by
    simp only [verify, hfast, Bool.false_eq_true, if_false, hrec, htx]
    cases txo <;> rfl
  rw [hred]
  cases txo with
  | none => exact ⟨rfl, rfl, fun _ => rfl, fun x hx => Option.noConfusion hx⟩
  | some tx => exact ⟨rfl, rfl, fun hx => Option.noConfusion hx, fun _ _ => rfl⟩

/-- Claim C5 witness: both no-receipt outcomes at concrete inputs. -/
theorem verify_no_receipt_distinguishes_witness :
    (verify exCfg [] exChainNotFound 7 "0xDEADBEEF").1 = .notFound ∧
    (verify exCfg [] exChainPendingTx 7 "0xDEADBEEF").1 = .pending := by
  have h1 := (verify_no_receipt_distinguishes exCfg [] exChainNotFound 7 "0xDEADBEEF" none
    (by decide) rfl rfl).1
  have h2 := (verify_no_receipt_distinguishes exCfg [] exChainPendingTx 7 "0xDEADBEEF"
    (some ⟨some "0xCafe0000000000000000000000000000000000cA"⟩) (by decide) rfl rfl).1
  exact ⟨h1, h2⟩

/-- Claim C6: the payments table is mutated only on a successful verification —
for every run whose outcome is anything other than Verified (pending, any
rejection, reverted, or a transport/decode error) the table is unchanged, and a
record keyed by the normalized (lower-cased) identifier is inserted exactly
when the outcome is Verified. -/
theorem verify_table_only_on_success (cfg : Config) (pm : PayMap) (chain : Chain)
    (now : Nat) (t : String) :
    (verify cfg pm chain now t).2.1 =
      match (verify cfg pm chain now t).1 with
      | .verified p c a => insertPay pm (strLower t) ⟨true, p, c, natToDecStr a, now⟩
      | _ => pm :=
  verify_payments_characterization cfg pm chain now t

/- ===== Claim C4: idempotent fast path ===== -/

/-- Claim C4 counterexample: with an empty table, the first call verifies
(payer, creator, amount in the response); the second call on the updated table
performs zero chain queries but returns the fixed already-verified response,
which is not identical to the first call's response. -/
theorem verify_second_call_differs_counterexample :
    (verify exCfg [] exChain 7 "0xDEADBEEF").1 = .verified exPayer exCreator 1000 ∧
    (verify exCfg (verify exCfg [] exChain 7 "0xDEADBEEF").2.1 exChain 7 "0xDEADBEEF").1 =
      .alreadyVerified ∧
    (verify exCfg (verify exCfg [] exChain 7 "0xDEADBEEF").2.1 exChain 7 "0xDEADBEEF").1 ≠
      (verify exCfg [] exChain 7 "0xDEADBEEF").1 ∧
    (verify exCfg (verify exCfg [] exChain 7 "0xDEADBEEF").2.1 exChain 7 "0xDEADBEEF").2.2 = 0 := by
  refine ⟨by decide, by decide, by decide, by decide⟩

/-- Claim C4 (amended): when a verified record exists for the normalized
identifier, verify returns immediately with the already-verified success
response, performs zero ChainReader invocations, and leaves the table
unchanged; and after any call that returns Verified the fast path is armed, so
a second call takes it.  The second response, however, omits the payer/amount
of the first response, so it is not identical to it. -/
theorem verify_fast_path_behaviour :
    (∀ (cfg : Config) (pm : PayMap) (chain : Chain) (now : Nat) (t : String),
      fastPathHit pm t = true → verify cfg pm chain now t = (.alreadyVerified, pm, 0)) ∧
    (∀ (cfg : Config) (pm : PayMap) (chain : Chain) (now : Nat) (t : String) (p c : String)
      (a : Nat), (verify cfg pm chain now t).1 = .verified p c a →
      fastPathHit (verify cfg pm chain now t).2.1 t = true) := by
  constructor
  · intro cfg pm chain now t h
    simp only [verify, h, if_true]
  · intro cfg pm chain now t p c a h
    have hchar := verify_payments_characterization cfg pm chain now t
    have hins : (verify cfg pm chain now t).2.1 =
        insertPay pm (strLower t) ⟨true, p, c, natToDecStr a, now⟩ := by
      rw [hchar, h]
    rw [hins]
    unfold fastPathHit
    rw [lookupPay_insertPay_self]

/-- Claim C4 witness: a table holding a verified record for the hash returns
immediately with zero chain reads and an unchanged table. -/
theorem verify_fast_path_behaviour_witness :
    verify exCfg exPayMap exChain 7 "0xDEADBEEF" = (.alreadyVerified, exPayMap, 0) :=
  verify_fast_path_behaviour.1 exCfg exPayMap exChain 7 "0xDEADBEEF" (by decide)

/- ===== Claim C7: decoder truncation behaviour ===== -/

/-- Claim C7 counterexample: a `getResource` return buffer (648 hex characters)
whose contentRef length word declares 100 bytes with only 4 bytes of content
present decodes successfully to the truncated string "abcd" — no TruncatedData
failure occurs. -/
theorem decodeResource_truncated_ok_counterexample :
    exTruncRet.length = 648 ∧
    hexToNat? (strSlice exTruncRet 576 640) = some 100 ∧
    decodeResource exTruncRet = .ok exTruncRes ∧
    exTruncRes.contentRef.length = 4 := by
  refine ⟨by decide, by decide, by rfl, by decide⟩

/-- Claim C7 (amended): the decoder never reads outside the buffer — every
slice clamps to `len(data)` — and a decoded string never holds more bytes than
the buffer (no value fabricated from missing bytes); a dynamic-field offset
whose length word lies wholly beyond the end aborts decoding with a thrown
error.  An over-long length word, however, silently yields a string truncated
to the bytes available instead of a TruncatedData failure. -/
theorem decodeResource_no_out_of_bounds :
    (∀ (d : String) (r : Resource), decodeResource d = .ok r →
      2 * r.contentType.length ≤ d.length + 1 ∧ 2 * r.contentRef.length ≤ d.length + 1) ∧
    (∀ (d : String) (tOff : Nat),
      (hexToNat? (strSlice d 0 64)).isSome →
      (hexToNat? (strSlice d 64 128)).isSome →
      (hexToNat? (strSlice d 128 192)).isSome →
      (hexToNat? (strSlice d 192 256)).isSome →
      hexToNat? (strSlice d 256 320) = some tOff →
      d.length ≤ tOff * 2 →
      decodeResource d = .error ()) :=
  ⟨decodeResource_ok_strings,
   fun d tOff p1 p2 p3 p4 p5 hpast =>
     decodeResource_offset_past_end d tOff p1 p2 p3 p4 p5 hpast⟩

/-- Claim C7 witness: the bounds applied to the concrete truncated buffer. -/
theorem decodeResource_no_out_of_bounds_witness :
    2 * exTruncRes.contentType.length ≤ exTruncRet.length + 1 ∧
    2 * exTruncRes.contentRef.length ≤ exTruncRet.length + 1 :=
  decodeResource_no_out_of_bounds.1 exTruncRet exTruncRes (by rfl)

/- ===== Claim C8: codec round trip ===== -/

/-- Claim C8 (amended): the codec round-trips on ASCII argument data — for
every ASCII string (whose byte length fits a 32-byte word), decoding the
selector-stripped `getResource(string)` calldata recovers the string exactly,
the widget encoder's length prefix being the byte count the decoder consumes;
and every `uint256` word round-trips through `padUint`.  Beyond ASCII the
round trip fails (see the counterexample): the decoder rebuilds characters
byte-by-byte without UTF-8 decoding, and the server-side `encodeString` writes
the UTF-16 length, not the byte count. -/
theorem codec_roundtrip_ascii :
    (∀ s : String, (∀ c ∈ s.data, c.toNat < 128) → s.data.length < 16 ^ 64 →
      decodeOneStringReturn (getResourceCalldataBody s) = .ok s) ∧
    (∀ n : Nat, n < 16 ^ 64 → hexToNat? (strSlice (padUint n) 0 64) = some n) := by
  constructor
  · exact decode_encStr_ascii
  · intro n hn
    have hs : strSlice (padUint n) 0 64 = padUint n := by
      show (⟨((padUint n).data.take 64).drop 0⟩ : String) = padUint n
      have hlen64 : (padUint n).data.length ≤ 64 := le_of_eq (padUint_length n hn)
      rw [List.drop_zero, List.take_of_length_le hlen64]
    rw [hs, hexToNat_padUint]

/-- Claim C8 counterexample: the non-ASCII string "é" (UTF-8 bytes c3 a9) does
not round-trip: the decoder returns the two-character Latin-1 reading "Ã©",
and the server-side `encodeString` length prefix is 1 (UTF-16 units) while the
byte count is 2. -/
theorem codec_roundtrip_nonascii_counterexample :
    decodeOneStringReturn (getResourceCalldataBody "é") = .ok "Ã©" ∧
    ("Ã©" : String) ≠ "é" ∧
    hexToNat? (strSlice (encodeString "é") 0 64) = some 1 ∧
    (utf8Bytes "é").length = 2 := by
  refine ⟨by rfl, by decide, by decide, by decide⟩

/-- Claim C8 witness: the ASCII round trip and the uint round trip at concrete
inputs. -/
theorem codec_roundtrip_ascii_witness :
    decodeOneStringReturn (getResourceCalldataBody "abc") = .ok "abc" ∧
    hexToNat? (strSlice (padUint 7) 0 64) = some 7 :=
  ⟨codec_roundtrip_ascii.1 "abc" (by decide) (by decide),
   codec_roundtrip_ascii.2 7 (by decide)⟩

/- ===== Claim C9: content-source classification scenarios ===== -/

/-- Claim C9: the classifier maps the five scenario inputs to the stated kinds
(the spec's `direct-media` is the code's `direct`; `video-platform` is the
code's `youtube`), extracting the platform id from the youtu.be URL. -/
theorem detectSource_scenarios :
    detectSource "ipfs://bafybeigdyr" = ⟨"ipfs", "ipfs://bafybeigdyr"⟩ ∧
    detectSource "https://cdn.example.com/clip.mp4" =
      ⟨"direct", "https://cdn.example.com/clip.mp4"⟩ ∧
    detectSource "https://youtu.be/dQw4w9WgXcQ" = ⟨"youtube", "dQw4w9WgXcQ"⟩ ∧
    (detectSource "dQw4w9WgXcQ").type = "youtube" ∧
    (detectSource "not a url at all").type = "unknown" := by
  refine ⟨by decide, by decide, by decide, by decide, by decide⟩
